import Mathlib

/-!
# OKLCH Lab - verification of the curve-based ramp generator and gamut engine

Shallow embedding of the core of `src/script.js` (OKLCH Lab, a curve-based
color ramp generator). JavaScript numbers are modelled as exact rationals
(`ℚ`); the arithmetic of the curve evaluators, clamps and the binary search
is plain field arithmetic, faithfully transcribed. The in-gamut test
`isInGamut(l, c, h)` is a collaborator capability (spec section 6: it is
delegated to the external culori library when available, with a fallback
built on the transcendental functions `Math.cos`, `Math.sin`, `Math.pow`);
it is therefore modelled as an abstract boolean-valued parameter `GamutPred`
threaded through the definitions that call it, exactly where the source
calls `isInGamut`.

Mutation is modelled by explicit state passing: the process-wide cache
`gamutCache` is threaded in and out of every operation that reads or writes
it, and functions that in the source mutate a hue family in place here
return the updated family. In addition, the operations return the number of
`findMaxChroma` invocations they perform, and `findMaxChroma` itself reports
whether it ran the binary search or answered from the cache; this
instrumentation only records which code path executed and does not alter
any computed value.

Note on division: JavaScript division `0/0` yields `NaN`, while `ℚ`
division by zero yields `0`. The two differ only for the malformed curve
configurations (`peakPosition = 0`, `stepCount < 2`) discussed at claim C4;
no theorem below relies on the value produced at such a degenerate division,
only on the fact that generation still completes and replaces the steps.
-/

namespace OklchLab

/-- One generated color step, an OKLCH triple (`{l, c, h}` in the source). -/
structure Step where
  l : ℚ
  c : ℚ
  h : ℚ
  deriving DecidableEq

/-- A lightness or hue curve `{start, end, type}`. The source field `end` is a
Lean keyword and is rendered `endv`; `type` is one of the easing names. -/
structure CurveLH where
  start : ℚ
  endv : ℚ
  type : String
  deriving DecidableEq

/-- A chroma curve `{start, peak, end, peakPosition}`. -/
structure CurveC where
  start : ℚ
  peak : ℚ
  endv : ℚ
  peakPosition : ℚ
  deriving DecidableEq

/-- One entry of the `colorSystem` registry: base hue angle `h`, reference
lightness `l` and chroma `c`, the shaping curves, the optional hue-ramping
curve with its flag, the per-family `gamutAware` policy, and the derived
steps. The cosmetic `hex` string of the source is omitted. -/
structure HueFamily where
  h : ℚ
  l : ℚ
  c : ℚ
  lightnessCurve : CurveLH
  chromaCurve : CurveC
  hueCurve : Option CurveLH
  useHueRamping : Bool
  gamutAware : Bool
  steps : List Step
  deriving DecidableEq

/-- The easing remap shared by `calculateLightnessCurve` and
`calculateHueCurve` (the `switch (curveType)` body): `easeIn` is `t*t`,
`easeOut` is `1-(1-t)^2`, `sCurve` is the piecewise quadratic, and both
`linear` and every unrecognized type fall through to `t`. -/
def curveEase (curveType : String) (t : ℚ) : ℚ :=
  if curveType = "easeIn" then t * t
  else if curveType = "easeOut" then 1 - (1 - t) ^ 2
  else if curveType = "sCurve" then
    (if t < 0.5 then 2 * t * t else 1 - (-2 * t + 2) ^ 2 / 2)
  else t

/-- Loop body of `calculateLightnessCurve` at normalized position `t`. -/
def lightnessCurveAt (start endv : ℚ) (curveType : String) (t : ℚ) : ℚ :=
  start + (endv - start) * curveEase curveType t

/-- `calculateLightnessCurve(start, end, steps, curveType)`: one value per
step index `i`, at `t = i / (steps - 1)`. -/
def calculateLightnessCurve (start endv : ℚ) (steps : ℕ) (curveType : String) : List ℚ :=
  (List.range steps).map fun i : ℕ =>
    lightnessCurveAt start endv curveType ((i : ℚ) / ((steps : ℚ) - 1))

/-- Loop body of `calculateChromaCurve` at normalized position `t`:
piecewise-linear through `(0, start)`, `(peakPosition, peak)`, `(1, end)`. -/
def chromaCurveAt (start peak endv peakPosition t : ℚ) : ℚ :=
  if t ≤ peakPosition then
    start + (peak - start) * (t / peakPosition)
  else
    peak + (endv - peak) * ((t - peakPosition) / (1 - peakPosition))

/-- `calculateChromaCurve(start, peak, end, peakPosition, steps)`. -/
def calculateChromaCurve (start peak endv peakPosition : ℚ) (steps : ℕ) : List ℚ :=
  (List.range steps).map fun i : ℕ =>
    chromaCurveAt start peak endv peakPosition ((i : ℚ) / ((steps : ℚ) - 1))

/-- Loop body of `calculateHueCurve`; the source duplicates the easing
switch of the lightness evaluator verbatim. -/
def hueCurveAt (start endv : ℚ) (curveType : String) (t : ℚ) : ℚ :=
  start + (endv - start) * curveEase curveType t

/-- `calculateHueCurve(start, end, steps, curveType)`. -/
def calculateHueCurve (start endv : ℚ) (steps : ℕ) (curveType : String) : List ℚ :=
  (List.range steps).map fun i : ℕ =>
    hueCurveAt start endv curveType ((i : ℚ) / ((steps : ℚ) - 1))

/-- The collaborator gamut test `isInGamut(l, c, h) -> bool` (spec section 6:
culori when available, otherwise the self-contained OKLCH to sRGB fallback). -/
abbrev GamutPred := ℚ → ℚ → ℚ → Bool

/-- The process-wide `gamutCache`, a mapping from quantized `(l, h)` keys to
previously found maximum chroma values. The JS object is modelled as an
association list; assignment conses the new binding in front, so lookups see
the most recent one, exactly as overwriting an object property would. -/
abbrev GamutCache := List ((ℤ × ℤ) × ℚ)

/-- Decimal rounding used by the cache key: `x.toFixed(p)` is modelled by the
integer `round(x * 10^p)` (round half up, which agrees with `toFixed` on the
nonnegative values occurring here). -/
def quantize (x : ℚ) (p : ℕ) : ℤ :=
  ⌊x * (10 : ℚ) ^ p + 1 / 2⌋

/-- The cache key `` `${l.toFixed(3)}_${h.toFixed(1)}` `` as the pair of the
two rounded decimals (an injective rendering of the key string). -/
def cacheKey (l h : ℚ) : ℤ × ℤ :=
  (quantize l 3, quantize h 1)

/-- Lookup `gamutCache[cacheKey]`. -/
def cacheFind (cache : GamutCache) (k : ℤ × ℤ) : Option ℚ :=
  (cache.find? fun e => decide (e.1 = k)).map fun e => e.2

/-- The `while (high - low > precision)` loop of `findMaxChroma` with
`precision = 0.001`: test the midpoint, keep the in-gamut half. The loop is
written with a fuel argument for structural termination; from the seeds
`low = 0`, `high = 0.4` the gap halves each iteration, so the guard fails
after 9 iterations and any fuel of at least 9 computes the value of the
source loop. -/
def searchLoop (G : GamutPred) (l h : ℚ) : ℚ → ℚ → ℕ → ℚ
  | low, _, 0 => low
  | low, high, fuel + 1 =>
    if high - low > 0.001 then
      if G l ((low + high) / 2) h then searchLoop G l h ((low + high) / 2) high fuel
      else searchLoop G l h low ((low + high) / 2) fuel
    else low

/-- `findMaxChroma(l, h)`: consult the cache under the quantized key; on a
miss, binary-search `c ∈ [0, 0.4]` against `isInGamut` and store the result.
Returns the chroma bound, the updated cache, and whether the binary search
ran (`false` exactly on a cache hit). -/
def findMaxChroma (G : GamutPred) (cache : GamutCache) (l h : ℚ) : ℚ × GamutCache × Bool :=
  match cacheFind cache (cacheKey l h) with
  | some v => (v, cache, false)
  | none =>
    let result := searchLoop G l h 0 0.4 64
    (result, (cacheKey l h, result) :: cache, true)

/-- The step-construction loop shared verbatim by `generateDefaultSteps` and
`regenerateSingleHue`: for each index, clamp lightness to `[0.05, 0.98]` and
raw chroma to `[0, 0.4]`, pick the hue from the ramping values when present
and the base hue otherwise, and, when the gamut flag is on, additionally
clamp chroma by `findMaxChroma(l, h)`. Returns the steps, the cache after
the loop, and the number of `findMaxChroma` invocations. -/
def genStepsAux (G : GamutPred) (useGamut : Bool) (lv cv : List ℚ) (hv : Option (List ℚ))
    (baseH : ℚ) : List ℕ → GamutCache → List Step × GamutCache × ℕ
  | [], cache => ([], cache, 0)
  | i :: rest, cache =>
    let l : ℚ := max 0.05 (min 0.98 (lv.getD i 0))
    let c : ℚ := max 0 (min 0.4 (cv.getD i 0))
    let h : ℚ := match hv with
      | some hs => hs.getD i 0
      | none => baseH
    if useGamut then
      let fm := findMaxChroma G cache l h
      let r := genStepsAux G useGamut lv cv hv baseH rest fm.2.1
      (⟨l, min c fm.1, h⟩ :: r.1, r.2.1, r.2.2 + 1)
    else
      let r := genStepsAux G useGamut lv cv hv baseH rest cache
      (⟨l, c, h⟩ :: r.1, r.2.1, r.2.2)

/-- The per-family body common to `generateDefaultSteps` and
`regenerateSingleHue`: evaluate the three curves for `stepCount` steps (the
hue curve only under `useHueRamping && hueCurve`) and run the step loop. The
two source functions duplicate this body and differ in exactly one place:
which gamut flag feeds the `if` around `findMaxChroma`; it is therefore the
explicit `useGamut` parameter here, and each wrapper below passes the flag
its source reads. -/
def generateFamilySteps (G : GamutPred) (useGamut : Bool) (stepCount : ℕ)
    (hueData : HueFamily) (cache : GamutCache) : List Step × GamutCache × ℕ :=
  let lightnessValues := calculateLightnessCurve hueData.lightnessCurve.start
    hueData.lightnessCurve.endv stepCount hueData.lightnessCurve.type
  let chromaValues := calculateChromaCurve hueData.chromaCurve.start hueData.chromaCurve.peak
    hueData.chromaCurve.endv hueData.chromaCurve.peakPosition stepCount
  let hueValues : Option (List ℚ) :=
    if hueData.useHueRamping then
      hueData.hueCurve.map fun hc => calculateHueCurve hc.start hc.endv stepCount hc.type
    else none
  genStepsAux G useGamut lightnessValues chromaValues hueValues hueData.h
    (List.range stepCount) cache

/-- `regenerateSingleHue(hueName)`: regenerate one family, reading the
gamut policy from `hueData.gamutAware` (the per-family flag). -/
def regenerateSingleHue (G : GamutPred) (stepsParam : ℕ) (hueData : HueFamily)
    (cache : GamutCache) : HueFamily × GamutCache × ℕ :=
  let r := generateFamilySteps G hueData.gamutAware stepsParam hueData cache
  ({ hueData with steps := r.1 }, r.2.1, r.2.2)

/-- `generateDefaultSteps()`: regenerate every family of the registry in
order, reading the gamut policy from the global `params.gamutAware` (not
from the family being generated). -/
def generateDefaultSteps (G : GamutPred) (globalGamutAware : Bool) (stepsParam : ℕ) :
    List (String × HueFamily) → GamutCache → List (String × HueFamily) × GamutCache × ℕ
  | [], cache => ([], cache, 0)
  | (name, hueData) :: rest, cache =>
    let r := generateFamilySteps G globalGamutAware stepsParam hueData cache
    let rr := generateDefaultSteps G globalGamutAware stepsParam rest r.2.1
    ((name, { hueData with steps := r.1 }) :: rr.1, rr.2.1, r.2.2 + rr.2.2)

/-- `adjustHueLightness(multiplier)`: additive shift of every step lightness
so that the middle step reaches the target, each clamped to `[0, 1]`. -/
def adjustHueLightness (hue : HueFamily) (multiplier : ℚ) : HueFamily :=
  let midStep := hue.steps.getD (hue.steps.length / 2) ⟨0, 0, 0⟩
  let offset := multiplier - midStep.l
  { hue with steps := hue.steps.map fun color => { color with l := max 0 (min 1 (color.l + offset)) } }

/-- `adjustHueChroma(multiplier)`: multiplicative scaling of every step
chroma by `multiplier / currentMidC` (`1` when the middle chroma is not
positive), each clamped to `[0, 0.4]`. -/
def adjustHueChroma (hue : HueFamily) (multiplier : ℚ) : HueFamily :=
  let midStep := hue.steps.getD (hue.steps.length / 2) ⟨0, 0, 0⟩
  let scale : ℚ := if midStep.c > 0 then multiplier / midStep.c else 1
  { hue with steps := hue.steps.map fun color => { color with c := max 0 (min 0.4 (color.c * scale)) } }

/-- `adjustHueAngle(newHue)`: overwrite the base hue and the hue of every
step with the new value. -/
def adjustHueAngle (hue : HueFamily) (newHue : ℚ) : HueFamily :=
  { hue with h := newHue, steps := hue.steps.map fun color => { color with h := newHue } }

/-- One preset entry for one family (`presets[id].colors[hueName]`): the
hue-ramping fields and the gamut flag are optional in the source objects. -/
structure PresetColor where
  h : ℚ
  l : ℚ
  c : ℚ
  lightnessCurve : CurveLH
  chromaCurve : CurveC
  hueCurve : Option CurveLH
  useHueRamping : Option Bool
  gamutAware : Option Bool
  deriving DecidableEq

/-- The per-family overwrite of `loadPreset`: curves and reference values
are replaced; `hueCurve` and `useHueRamping` only when the preset provides
them; `gamutAware` is copied with default `true` when absent. -/
def applyPresetColor (fam : HueFamily) (pc : PresetColor) : HueFamily :=
  { fam with
    h := pc.h
    l := pc.l
    c := pc.c
    lightnessCurve := pc.lightnessCurve
    chromaCurve := pc.chromaCurve
    hueCurve := match pc.hueCurve with
      | some hc => some hc
      | none => fam.hueCurve
    useHueRamping := pc.useHueRamping.getD fam.useHueRamping
    gamutAware := pc.gamutAware.getD true }

/-- The mutable application state around the generator: the `colorSystem`
registry, the selected row, and the `params` mirrors plus the gamut cache. -/
structure AppState where
  colorSystem : List (String × HueFamily)
  selectedHue : String
  stepsParam : ℕ
  gamutAwareParam : Bool
  gamutCache : GamutCache
  deriving DecidableEq

/-- `colorSystem[name]` on the registry list. -/
def lookupFamily (cs : List (String × HueFamily)) (name : String) : Option HueFamily :=
  (cs.find? fun e => decide (e.1 = name)).map fun e => e.2

/-- In-place update of one registry entry. -/
def updateFamily (cs : List (String × HueFamily)) (name : String)
    (f : HueFamily → HueFamily) : List (String × HueFamily) :=
  cs.map fun e => if e.1 = name then (e.1, f e.2) else e

/-- The part of `selectHue` that matters to the generator: the global
`params.gamutAware` mirror is refreshed from the selected family
(`hue.gamutAware !== undefined ? hue.gamutAware : true`). -/
def selectHueGamutMirror (cs : List (String × HueFamily)) (name : String) : Bool :=
  ((lookupFamily cs name).map HueFamily.gamutAware).getD true

/-- The `steps` slider change handler: Tweakpane has already written
`params.steps`, then the handler runs `regenerateSteps()` (that is,
`generateDefaultSteps`), re-renders, and re-selects the current hue. The
gamut cache is NOT cleared here. Returns the new state and the number of
`findMaxChroma` invocations. -/
def stepsChangeHandler (G : GamutPred) (s : AppState) (v : ℕ) : AppState × ℕ :=
  let r := generateDefaultSteps G s.gamutAwareParam v s.colorSystem s.gamutCache
  ({ s with
      stepsParam := v
      colorSystem := r.1
      gamutCache := r.2.1
      gamutAwareParam := selectHueGamutMirror r.1 s.selectedHue }, r.2.2)

/-- The `gamutAware` toggle change handler: copy the new value onto the
selected family, clear the cache (`gamutCache = {}`), and regenerate that
single family (so its searches start from the empty cache). -/
def gamutAwareChangeHandler (G : GamutPred) (s : AppState) (v : Bool) : AppState × ℕ :=
  let cs1 := updateFamily s.colorSystem s.selectedHue fun fam => { fam with gamutAware := v }
  match lookupFamily cs1 s.selectedHue with
  | some fam =>
    let r := regenerateSingleHue G s.stepsParam fam ([] : GamutCache)
    ({ s with
        gamutAwareParam := v
        colorSystem := updateFamily cs1 s.selectedHue fun _ => r.1
        gamutCache := r.2.1 }, r.2.2)
  | none => ({ s with gamutAwareParam := v, colorSystem := cs1 }, 0)

/-- `loadPreset(presetId)` for a present preset id: overwrite every matching
family from the preset, clear the cache (`gamutCache = {}`), run the full
regeneration `regenerateSteps()` / `generateDefaultSteps` (which still reads
the pre-preset global `params.gamutAware`), then `selectHue` refreshes the
global mirror from the selected family. -/
def loadPresetOp (G : GamutPred) (preset : List (String × PresetColor)) (s : AppState) :
    AppState × ℕ :=
  let cs1 := s.colorSystem.map fun e =>
    match preset.find? (fun p => decide (p.1 = e.1)) with
    | some p => (e.1, applyPresetColor e.2 p.2)
    | none => e
  let r := generateDefaultSteps G s.gamutAwareParam s.stepsParam cs1 ([] : GamutCache)
  ({ s with
      colorSystem := r.1
      gamutCache := r.2.1
      gamutAwareParam := selectHueGamutMirror r.1 s.selectedHue }, r.2.2)

/-- Well-formedness of the gamut cache: every stored value lies in the search
interval `[0, 0.4]`. In the running program every entry is an output of the
binary search, so this invariant holds of every reachable cache (and is
preserved by all operations below). -/
def CacheWF (cache : GamutCache) : Prop :=
  ∀ e ∈ cache, 0 ≤ e.2 ∧ e.2 ≤ 0.4

/-- The step bounds of the data model: `l ∈ [0.05, 0.98]`, `c ∈ [0, 0.4]`,
`h ∈ [0, 360)`. -/
def StepInRange (s : Step) : Prop :=
  (0.05 ≤ s.l ∧ s.l ≤ 0.98) ∧ (0 ≤ s.c ∧ s.c ≤ 0.4) ∧ (0 ≤ s.h ∧ s.h < 360)

/-- Validity of a family configuration: `peakPosition` strictly inside
`(0, 1)`, base hue in `[0, 360)`, and the hue-ramping curve, when present,
with endpoints in `[0, 360)`. -/
def FamValid (fam : HueFamily) : Prop :=
  (0 < fam.chromaCurve.peakPosition ∧ fam.chromaCurve.peakPosition < 1) ∧
  (0 ≤ fam.h ∧ fam.h < 360) ∧
  (∀ hc, fam.hueCurve = some hc →
    (0 ≤ hc.start ∧ hc.start < 360) ∧ (0 ≤ hc.endv ∧ hc.endv < 360))

/-- A stand-in collaborator gamut test used to instantiate closed statements
whose content does not depend on which predicate the environment supplies
(invocation counts, cache plumbing, generation with the gamut flag off). -/
def G0 : GamutPred := fun _ _ _ => true

/-- The startup `colorSystem.yellow` family (hue ramping on, gamut off). -/
def yellowBase : HueFamily :=
  { h := 92.0, l := 0.80, c := 0.165
    lightnessCurve := ⟨0.966, 0.152, "linear"⟩
    chromaCurve := ⟨0.093, 0.201, 0.068, 0.36⟩
    hueCurve := some ⟨95.8, 71.5, "linear"⟩
    useHueRamping := true, gamutAware := false, steps := [] }

/-- The yellow family exactly as overwritten by `presets['07']` (Vibrant
Warm): `gamutAware: false` so that yellow may exceed the sRGB gamut. -/
def yellow07 : HueFamily :=
  { h := 84.5, l := 0.75, c := 0.1689
    lightnessCurve := ⟨0.9717, 0.15, "linear"⟩
    chromaCurve := ⟨0.0332, 0.1689, 0.08, 0.25⟩
    hueCurve := some ⟨88.1, 72.0, "linear"⟩
    useHueRamping := true, gamutAware := false, steps := [] }

/-- The purple family as overwritten by `presets['01']`, with the gamut
policy toggled off (as the per-row `Gamut Aware` control allows); used to
exhibit the clamping behavior of `adjustHueLightness` on generated steps. -/
def c7Base : HueFamily :=
  { h := 312.8, l := 0.53, c := 0.221
    lightnessCurve := ⟨0.98, 0.082, "linear"⟩
    chromaCurve := ⟨0.013, 0.221, 0.020, 0.45⟩
    hueCurve := none, useHueRamping := false, gamutAware := false, steps := [] }

/-- `c7Base` after a 6-step regeneration. -/
def c7Gen : HueFamily := (regenerateSingleHue G0 6 c7Base []).1

/-- A malformed configuration: `peakPosition = 0` (reachable through the
`Peak Position` slider, whose range starts at 0). In JavaScript the chroma
value at `t = 0` is then `0/0 = NaN`. -/
def c4Fam : HueFamily :=
  { h := 195.6, l := 0.70, c := 0.106
    lightnessCurve := ⟨0.96, 0.21, "linear"⟩
    chromaCurve := ⟨0.060, 0.114, 0.036, 0⟩
    hueCurve := none, useHueRamping := false, gamutAware := false, steps := [] }

/-- A concrete application state with a nonempty gamut cache: one cached
boundary value under the key of `(l, h) = (0.5, 195.6)`, global gamut flag
off. -/
def s0 : AppState :=
  { colorSystem := [("cyan",
      { h := 195.6, l := 0.70, c := 0.106
        lightnessCurve := ⟨0.96, 0.21, "linear"⟩
        chromaCurve := ⟨0.060, 0.114, 0.036, 0.36⟩
        hueCurve := none, useHueRamping := false, gamutAware := false, steps := [] })]
    selectedHue := "cyan", stepsParam := 12, gamutAwareParam := false
    gamutCache := [((500, 1956), 0.07)] }

/-! ## Generic lemmas about the curve evaluators -/

theorem curveEase_linear (t : ℚ) : curveEase "linear" t = t := rfl

theorem curveEase_of_unknown (ty : String) (t : ℚ)
    (h1 : ty ≠ "easeIn") (h2 : ty ≠ "easeOut") (h3 : ty ≠ "sCurve") :
    curveEase ty t = t := by
  simp [curveEase, h1, h2, h3]

theorem curveEase_mem (ty : String) (t : ℚ) (h0 : 0 ≤ t) (h1 : t ≤ 1) :
    0 ≤ curveEase ty t ∧ curveEase ty t ≤ 1 := by
  unfold curveEase
  split_ifs <;> constructor <;> nlinarith [sq_nonneg (1 - t), sq_nonneg (-2 * t + 2), sq_nonneg t]

theorem hueCurveAt_mem (a b : ℚ) (ty : String) (t : ℚ) (h0 : 0 ≤ t) (h1 : t ≤ 1)
    (ha0 : 0 ≤ a) (ha1 : a < 360) (hb0 : 0 ≤ b) (hb1 : b < 360) :
    0 ≤ hueCurveAt a b ty t ∧ hueCurveAt a b ty t < 360 := by
  obtain ⟨he0, he1⟩ := curveEase_mem ty t h0 h1
  unfold hueCurveAt
  constructor
  · nlinarith [mul_nonneg ha0 (sub_nonneg.mpr he1), mul_nonneg he0 hb0]
  · rcases le_total a b with hab | hab
    · nlinarith [mul_nonneg (sub_nonneg.mpr hab) (sub_nonneg.mpr he1)]
    · nlinarith [mul_nonneg (sub_nonneg.mpr hab) he0]

theorem rangeMap_getD (f : ℕ → ℚ) (n i : ℕ) (d : ℚ) (h : i < n) :
    ((List.range n).map f).getD i d = f i := by
  rw [List.getD_eq_getElem?_getD, List.getElem?_map, List.getElem?_range h]
  rfl

theorem rangeMap_mem {P : ℚ → Prop} (f : ℕ → ℚ) (n : ℕ)
    (hf : ∀ i, i < n → P (f i)) : ∀ x ∈ (List.range n).map f, P x := by
  intro x hx
  obtain ⟨i, hi, rfl⟩ := List.mem_map.mp hx
  exact hf i (List.mem_range.mp hi)

theorem getD_mem_or_default (xs : List ℚ) (i : ℕ) (d : ℚ) :
    xs.getD i d ∈ xs ∨ xs.getD i d = d := by
  by_cases hi : i < xs.length
  · left
    rw [List.getD_eq_getElem?_getD, List.getElem?_eq_getElem hi]
    exact List.getElem_mem hi
  · right
    rw [List.getD_eq_getElem?_getD, List.getElem?_eq_none (le_of_not_lt hi)]
    rfl

theorem normpos_mem (n i : ℕ) (hn : 2 ≤ n) (hi : i < n) :
    0 ≤ (i : ℚ) / ((n : ℚ) - 1) ∧ (i : ℚ) / ((n : ℚ) - 1) ≤ 1 := by
  have hn2 : (2 : ℚ) ≤ (n : ℚ) := by exact_mod_cast hn
  have hd : (0 : ℚ) < (n : ℚ) - 1 := by linarith
  constructor
  · exact div_nonneg (by positivity) (le_of_lt hd)
  · rw [div_le_one hd]
    have hin : (i : ℚ) + 1 ≤ (n : ℚ) := by exact_mod_cast hi
    linarith

theorem calculateHueCurve_mem (a b : ℚ) (n : ℕ) (ty : String) (hn : 2 ≤ n)
    (ha0 : 0 ≤ a) (ha1 : a < 360) (hb0 : 0 ≤ b) (hb1 : b < 360) :
    ∀ x ∈ calculateHueCurve a b n ty, 0 ≤ x ∧ x < 360 := by
  unfold calculateHueCurve
  refine rangeMap_mem _ n fun i hi => ?_
  obtain ⟨ht0, ht1⟩ := normpos_mem n i hn hi
  exact hueCurveAt_mem a b ty _ ht0 ht1 ha0 ha1 hb0 hb1

/-! ## Lemmas about the cache and the binary search -/

theorem cacheFind_cons_self (cache : GamutCache) (k : ℤ × ℤ) (v : ℚ) :
    cacheFind ((k, v) :: cache) k = some v := by
  simp [cacheFind, List.find?_cons]

theorem cacheFind_mem (cache : GamutCache) (k : ℤ × ℤ) (v : ℚ)
    (h : cacheFind cache k = some v) : ∃ e ∈ cache, e.2 = v := by
  unfold cacheFind at h
  cases hf : cache.find? (fun e => decide (e.1 = k)) with
  | none => rw [hf] at h; simp at h
  | some e =>
    rw [hf] at h
    simp only [Option.map_some', Option.some.injEq] at h
    exact ⟨e, List.mem_of_find?_eq_some hf, h⟩

theorem searchLoop_bounds (G : GamutPred) (l h : ℚ) :
    ∀ (fuel : ℕ) (low high : ℚ), low ≤ high →
      low ≤ searchLoop G l h low high fuel ∧ searchLoop G l h low high fuel ≤ high := by
  intro fuel
  induction fuel with
  | zero =>
    intro low high hlh
    exact ⟨le_refl _, hlh⟩
  | succ fuel ih =>
    intro low high hlh
    rw [searchLoop]
    split_ifs with hgap hG
    · have hrec := ih ((low + high) / 2) high (by linarith)
      exact ⟨le_trans (by linarith) hrec.1, hrec.2⟩
    · have hrec := ih low ((low + high) / 2) (by linarith)
      exact ⟨hrec.1, le_trans hrec.2 (by linarith)⟩
    · exact ⟨le_refl _, hlh⟩

/-- Lower half of the boundary contract: whatever the in-gamut predicate,
if the lower seed tests in gamut then so does the returned value (every
move of `low` is to a midpoint that passed the test). -/
theorem searchLoop_in_gamut (G : GamutPred) (l h : ℚ) :
    ∀ (fuel : ℕ) (low high : ℚ), G l low h = true →
      G l (searchLoop G l h low high fuel) h = true := by
  intro fuel
  induction fuel with
  | zero => intro low high hlow; exact hlow
  | succ fuel ih =>
    intro low high hlow
    rw [searchLoop]
    split_ifs with hgap hG
    · exact ih _ _ hG
    · exact ih _ _ hlow
    · exact hlow

/-- Upper half of the boundary contract, for a chroma-antitone predicate:
if the upper end is out of gamut and the initial gap is at most
`0.001 * 2 ^ fuel`, then everything at least `0.002` above the returned
value is out of gamut. -/
theorem searchLoop_out_of_gamut (G : GamutPred) (l h : ℚ)
    (hmono : ∀ c1 c2 : ℚ, c1 ≤ c2 → G l c2 h = true → G l c1 h = true) :
    ∀ (fuel : ℕ) (low high : ℚ), low ≤ high → G l high h = false →
      high - low ≤ 0.001 * 2 ^ fuel →
      ∀ c, searchLoop G l h low high fuel + 0.002 ≤ c → G l c h = false := by
  intro fuel
  induction fuel with
  | zero =>
    intro low high hlh hhigh hgap c hc
    simp only [searchLoop] at hc
    have hhc : high ≤ c := by norm_num at hgap; linarith
    cases hcv : G l c h with
    | false => rfl
    | true => rw [hmono high c hhc hcv] at hhigh; exact absurd hhigh (by simp)
  | succ fuel ih =>
    intro low high hlh hhigh hgap c hc
    rw [searchLoop] at hc
    split_ifs at hc with hgapc hG
    · exact ih ((low + high) / 2) high (by linarith) hhigh
        (by rw [pow_succ] at hgap; linarith) c hc
    · simp only [Bool.not_eq_true] at hG
      exact ih low ((low + high) / 2) (by linarith) hG
        (by rw [pow_succ] at hgap; linarith) c hc
    · have hhc : high ≤ c := by
        have hle := not_lt.mp hgapc
        linarith
      cases hcv : G l c h with
      | false => rfl
      | true => rw [hmono high c hhc hcv] at hhigh; exact absurd hhigh (by simp)

theorem findMaxChroma_val_bounds (G : GamutPred) (cache : GamutCache) (l h : ℚ)
    (hwf : CacheWF cache) :
    0 ≤ (findMaxChroma G cache l h).1 ∧ (findMaxChroma G cache l h).1 ≤ 0.4 := by
  unfold findMaxChroma
  cases hf : cacheFind cache (cacheKey l h) with
  | some v =>
    obtain ⟨e, he, hev⟩ := cacheFind_mem cache _ v hf
    simpa [hev] using hwf e he
  | none =>
    simpa using searchLoop_bounds G l h 64 0 0.4 (by norm_num)

theorem findMaxChroma_cacheWF (G : GamutPred) (cache : GamutCache) (l h : ℚ)
    (hwf : CacheWF cache) : CacheWF (findMaxChroma G cache l h).2.1 := by
  unfold findMaxChroma
  cases hf : cacheFind cache (cacheKey l h) with
  | some v => exact hwf
  | none =>
    intro e he
    simp only [List.mem_cons] at he
    rcases he with he | he
    · rw [he]
      simpa using searchLoop_bounds G l h 64 0 0.4 (by norm_num)
    · exact hwf e he

theorem findMaxChroma_cache_mono (G : GamutPred) (cache : GamutCache) (l h : ℚ) :
    ∀ e ∈ cache, e ∈ (findMaxChroma G cache l h).2.1 := by
  intro e he
  unfold findMaxChroma
  cases hf : cacheFind cache (cacheKey l h) with
  | some v => exact he
  | none => exact List.mem_cons_of_mem _ he

/-! ## Lemmas about the step-construction loop -/

theorem genStepsAux_length (G : GamutPred) (u : Bool) (lv cv : List ℚ)
    (hv : Option (List ℚ)) (b : ℚ) :
    ∀ (idx : List ℕ) (cache : GamutCache),
      (genStepsAux G u lv cv hv b idx cache).1.length = idx.length := by
  intro idx
  induction idx with
  | nil => intro cache; rfl
  | cons i rest ih =>
    intro cache
    cases u <;> simp [genStepsAux, ih]

theorem genStepsAux_count (G : GamutPred) (u : Bool) (lv cv : List ℚ)
    (hv : Option (List ℚ)) (b : ℚ) :
    ∀ (idx : List ℕ) (cache : GamutCache),
      (genStepsAux G u lv cv hv b idx cache).2.2 = if u then idx.length else 0 := by
  intro idx
  induction idx with
  | nil => intro cache; cases u <;> rfl
  | cons i rest ih =>
    intro cache
    cases u <;> simp [genStepsAux, ih]

theorem genStepsAux_cache_mono (G : GamutPred) (u : Bool) (lv cv : List ℚ)
    (hv : Option (List ℚ)) (b : ℚ) :
    ∀ (idx : List ℕ) (cache : GamutCache) (e : (ℤ × ℤ) × ℚ), e ∈ cache →
      e ∈ (genStepsAux G u lv cv hv b idx cache).2.1 := by
  intro idx
  induction idx with
  | nil => intro cache e he; exact he
  | cons i rest ih =>
    intro cache e he
    cases u with
    | false => simpa [genStepsAux] using ih cache e he
    | true =>
      simp only [genStepsAux]
      exact ih _ e (findMaxChroma_cache_mono G cache _ _ e he)

theorem genStepsAux_cacheWF (G : GamutPred) (u : Bool) (lv cv : List ℚ)
    (hv : Option (List ℚ)) (b : ℚ) :
    ∀ (idx : List ℕ) (cache : GamutCache), CacheWF cache →
      CacheWF (genStepsAux G u lv cv hv b idx cache).2.1 := by
  intro idx
  induction idx with
  | nil => intro cache hwf; exact hwf
  | cons i rest ih =>
    intro cache hwf
    cases u with
    | false => simpa [genStepsAux] using ih cache hwf
    | true =>
      simp only [genStepsAux]
      exact ih _ (findMaxChroma_cacheWF G cache _ _ hwf)

theorem genStepsAux_bounds (G : GamutPred) (u : Bool) (lv cv : List ℚ)
    (hv : Option (List ℚ)) (b : ℚ)
    (hb0 : 0 ≤ b) (hb1 : b < 360)
    (hhv : ∀ hs, hv = some hs → ∀ x ∈ hs, 0 ≤ x ∧ x < 360) :
    ∀ (idx : List ℕ) (cache : GamutCache), CacheWF cache →
      ∀ s ∈ (genStepsAux G u lv cv hv b idx cache).1, StepInRange s := by
  have hL : ∀ x : ℚ, 0.05 ≤ max 0.05 (min 0.98 x) ∧ max 0.05 (min 0.98 x) ≤ 0.98 :=
    fun x => ⟨le_max_left _ _, max_le (by norm_num) (min_le_left _ _)⟩
  have hC : ∀ x : ℚ, 0 ≤ max 0 (min 0.4 x) ∧ max 0 (min 0.4 x) ≤ 0.4 :=
    fun x => ⟨le_max_left _ _, max_le (by norm_num) (min_le_left _ _)⟩
  have hH : ∀ i : ℕ, 0 ≤ (match hv with | some hs => hs.getD i 0 | none => b) ∧
      (match hv with | some hs => hs.getD i 0 | none => b) < 360 := by
    intro i
    cases hv with
    | none => exact ⟨hb0, hb1⟩
    | some hs =>
      dsimp only
      rcases getD_mem_or_default hs i 0 with hm | hd
      · exact hhv hs rfl _ hm
      · rw [hd]; norm_num
  intro idx
  induction idx with
  | nil => intro cache hwf s hs; exact absurd hs (List.not_mem_nil s)
  | cons i rest ih =>
    intro cache hwf s hs
    cases u with
    | false =>
      rw [show genStepsAux G false lv cv hv b (i :: rest) cache =
          (⟨max 0.05 (min 0.98 (lv.getD i 0)), max 0 (min 0.4 (cv.getD i 0)),
            match hv with | some hs => hs.getD i 0 | none => b⟩ ::
              (genStepsAux G false lv cv hv b rest cache).1,
            (genStepsAux G false lv cv hv b rest cache).2.1,
            (genStepsAux G false lv cv hv b rest cache).2.2) from rfl] at hs
      rcases List.mem_cons.mp hs with hs | hs
      · subst hs
        exact ⟨hL _, hC _, hH i⟩
      · exact ih cache hwf s hs
    | true =>
      rw [show genStepsAux G true lv cv hv b (i :: rest) cache =
          (⟨max 0.05 (min 0.98 (lv.getD i 0)),
            min (max 0 (min 0.4 (cv.getD i 0)))
              (findMaxChroma G cache (max 0.05 (min 0.98 (lv.getD i 0)))
                (match hv with | some hs => hs.getD i 0 | none => b)).1,
            match hv with | some hs => hs.getD i 0 | none => b⟩ ::
              (genStepsAux G true lv cv hv b rest
                (findMaxChroma G cache (max 0.05 (min 0.98 (lv.getD i 0)))
                  (match hv with | some hs => hs.getD i 0 | none => b)).2.1).1,
            (genStepsAux G true lv cv hv b rest
                (findMaxChroma G cache (max 0.05 (min 0.98 (lv.getD i 0)))
                  (match hv with | some hs => hs.getD i 0 | none => b)).2.1).2.1,
            (genStepsAux G true lv cv hv b rest
                (findMaxChroma G cache (max 0.05 (min 0.98 (lv.getD i 0)))
                  (match hv with | some hs => hs.getD i 0 | none => b)).2.1).2.2 + 1)
          from rfl] at hs
      rcases List.mem_cons.mp hs with hs | hs
      · subst hs
        refine ⟨hL _, ⟨le_min (hC _).1 ?_, le_trans (min_le_left _ _) (hC _).2⟩, hH i⟩
        exact (findMaxChroma_val_bounds G cache _ _ hwf).1
      · exact ih _ (findMaxChroma_cacheWF G cache _ _ hwf) s hs

/-- With the gamut flag off the loop is a pure map over the index list and
leaves the cache untouched. -/
theorem genStepsAux_false_map (G : GamutPred) (lv cv : List ℚ)
    (hv : Option (List ℚ)) (b : ℚ) :
    ∀ (idx : List ℕ) (cache : GamutCache),
      genStepsAux G false lv cv hv b idx cache =
        (idx.map fun i =>
          (⟨max 0.05 (min 0.98 (lv.getD i 0)), max 0 (min 0.4 (cv.getD i 0)),
            match hv with | some hs => hs.getD i 0 | none => b⟩ : Step),
         cache, 0) := by
  intro idx
  induction idx with
  | nil => intro cache; rfl
  | cons i rest ih =>
    intro cache
    simp [genStepsAux, ih]

/-! ## Lemmas about the per-family and full generation wrappers -/

theorem generateFamilySteps_length (G : GamutPred) (u : Bool) (n : ℕ)
    (fam : HueFamily) (cache : GamutCache) :
    (generateFamilySteps G u n fam cache).1.length = n := by
  unfold generateFamilySteps
  rw [genStepsAux_length]
  exact List.length_range n

theorem generateFamilySteps_count (G : GamutPred) (u : Bool) (n : ℕ)
    (fam : HueFamily) (cache : GamutCache) :
    (generateFamilySteps G u n fam cache).2.2 = if u then n else 0 := by
  unfold generateFamilySteps
  rw [genStepsAux_count, List.length_range]

theorem generateFamilySteps_cacheWF (G : GamutPred) (u : Bool) (n : ℕ)
    (fam : HueFamily) (cache : GamutCache) (hwf : CacheWF cache) :
    CacheWF (generateFamilySteps G u n fam cache).2.1 := by
  unfold generateFamilySteps
  exact genStepsAux_cacheWF G u _ _ _ _ _ cache hwf

theorem generateFamilySteps_cache_mono (G : GamutPred) (u : Bool) (n : ℕ)
    (fam : HueFamily) (cache : GamutCache) :
    ∀ e ∈ cache, e ∈ (generateFamilySteps G u n fam cache).2.1 := by
  unfold generateFamilySteps
  exact fun e he => genStepsAux_cache_mono G u _ _ _ _ _ cache e he

theorem generateFamilySteps_bounds (G : GamutPred) (u : Bool) (n : ℕ)
    (fam : HueFamily) (cache : GamutCache) (hn : 2 ≤ n) (hfam : FamValid fam)
    (hwf : CacheWF cache) :
    ∀ s ∈ (generateFamilySteps G u n fam cache).1, StepInRange s := by
  obtain ⟨-, ⟨hh0, hh1⟩, hhc⟩ := hfam
  unfold generateFamilySteps
  refine genStepsAux_bounds G u _ _ _ _ hh0 hh1 ?_ _ cache hwf
  intro hs heq
  cases hr : fam.useHueRamping with
  | false => rw [hr] at heq; simp at heq
  | true =>
    rw [hr] at heq
    simp only [if_pos rfl] at heq
    obtain ⟨hc, hceq, rfl⟩ := Option.map_eq_some'.mp heq
    obtain ⟨⟨hs0, hs1⟩, he0, he1⟩ := hhc hc hceq
    exact calculateHueCurve_mem hc.start hc.endv n hc.type hn hs0 hs1 he0 he1

/-- With the gamut flag off, generation never touches the cache. -/
theorem generateFamilySteps_false_cache (G : GamutPred) (n : ℕ)
    (fam : HueFamily) (cache : GamutCache) :
    (generateFamilySteps G false n fam cache).2.1 = cache := by
  unfold generateFamilySteps
  rw [genStepsAux_false_map]

theorem regenerateSingleHue_length (G : GamutPred) (n : ℕ) (fam : HueFamily)
    (cache : GamutCache) :
    (regenerateSingleHue G n fam cache).1.steps.length = n := by
  unfold regenerateSingleHue
  exact generateFamilySteps_length G fam.gamutAware n fam cache

theorem regenerateSingleHue_count (G : GamutPred) (n : ℕ) (fam : HueFamily)
    (cache : GamutCache) :
    (regenerateSingleHue G n fam cache).2.2 = if fam.gamutAware then n else 0 := by
  unfold regenerateSingleHue
  exact generateFamilySteps_count G fam.gamutAware n fam cache

theorem generateDefaultSteps_families (G : GamutPred) (gflag : Bool) (n : ℕ) (hn : 2 ≤ n) :
    ∀ (cs : List (String × HueFamily)) (cache : GamutCache), CacheWF cache →
      (∀ e ∈ cs, FamValid e.2) →
      (∀ e ∈ (generateDefaultSteps G gflag n cs cache).1,
        e.2.steps.length = n ∧ ∀ s ∈ e.2.steps, StepInRange s) ∧
      CacheWF (generateDefaultSteps G gflag n cs cache).2.1 ∧
      (∀ e ∈ cache, e ∈ (generateDefaultSteps G gflag n cs cache).2.1) := by
  intro cs
  induction cs with
  | nil =>
    intro cache hwf _
    exact ⟨fun e he => absurd he (List.not_mem_nil e), hwf, fun e he => he⟩
  | cons p rest ih =>
    intro cache hwf hcs
    obtain ⟨name, fam⟩ := p
    have hfam : FamValid fam := hcs _ (List.mem_cons_self _ _)
    have hrest : ∀ e ∈ rest, FamValid e.2 := fun e he => hcs e (List.mem_cons_of_mem _ he)
    have hwf1 : CacheWF (generateFamilySteps G gflag n fam cache).2.1 :=
      generateFamilySteps_cacheWF G gflag n fam cache hwf
    obtain ⟨ihFam, ihWF, ihMono⟩ := ih _ hwf1 hrest
    refine ⟨?_, ihWF, ?_⟩
    · intro e he
      rw [show generateDefaultSteps G gflag n ((name, fam) :: rest) cache =
          ((name, { fam with steps := (generateFamilySteps G gflag n fam cache).1 }) ::
              (generateDefaultSteps G gflag n rest (generateFamilySteps G gflag n fam cache).2.1).1,
            (generateDefaultSteps G gflag n rest (generateFamilySteps G gflag n fam cache).2.1).2.1,
            (generateFamilySteps G gflag n fam cache).2.2 +
              (generateDefaultSteps G gflag n rest
                (generateFamilySteps G gflag n fam cache).2.1).2.2) from rfl] at he
      rcases List.mem_cons.mp he with he | he
      · subst he
        exact ⟨generateFamilySteps_length G gflag n fam cache,
          generateFamilySteps_bounds G gflag n fam cache hn hfam hwf⟩
      · exact ihFam e he
    · intro e he
      exact ihMono e (generateFamilySteps_cache_mono G gflag n fam cache e he)

theorem generateDefaultSteps_count (G : GamutPred) (gflag : Bool) (n : ℕ) :
    ∀ (cs : List (String × HueFamily)) (cache : GamutCache),
      (generateDefaultSteps G gflag n cs cache).2.2 =
        if gflag then n * cs.length else 0 := by
  intro cs
  induction cs with
  | nil => intro cache; cases gflag <;> rfl
  | cons p rest ih =>
    intro cache
    obtain ⟨name, fam⟩ := p
    rw [show (generateDefaultSteps G gflag n ((name, fam) :: rest) cache).2.2 =
        (generateFamilySteps G gflag n fam cache).2.2 +
          (generateDefaultSteps G gflag n rest
            (generateFamilySteps G gflag n fam cache).2.1).2.2 from rfl]
    rw [generateFamilySteps_count, ih]
    cases gflag
    · simp
    · simp [Nat.mul_succ]
      omega

theorem generateDefaultSteps_false_cache (G : GamutPred) (n : ℕ) :
    ∀ (cs : List (String × HueFamily)) (cache : GamutCache),
      (generateDefaultSteps G false n cs cache).2.1 = cache := by
  intro cs
  induction cs with
  | nil => intro cache; rfl
  | cons p rest ih =>
    intro cache
    obtain ⟨name, fam⟩ := p
    rw [show (generateDefaultSteps G false n ((name, fam) :: rest) cache).2.1 =
        (generateDefaultSteps G false n rest
          (generateFamilySteps G false n fam cache).2.1).2.1 from rfl]
    rw [generateFamilySteps_false_cache, ih]

theorem generateDefaultSteps_cache_mono (G : GamutPred) (gflag : Bool) (n : ℕ) :
    ∀ (cs : List (String × HueFamily)) (cache : GamutCache) (e : (ℤ × ℤ) × ℚ),
      e ∈ cache → e ∈ (generateDefaultSteps G gflag n cs cache).2.1 := by
  intro cs
  induction cs with
  | nil => intro cache e he; exact he
  | cons p rest ih =>
    intro cache e he
    obtain ⟨name, fam⟩ := p
    exact ih _ e (generateFamilySteps_cache_mono G gflag n fam cache e he)

/-- With the gamut flag off and no hue ramping, generation is the pure
composition of the two curve evaluators and the clamps. -/
theorem generateFamilySteps_false_steps (G : GamutPred) (n : ℕ) (fam : HueFamily)
    (cache : GamutCache) (hram : fam.useHueRamping = false) :
    (generateFamilySteps G false n fam cache).1 =
      (List.range n).map fun i =>
        (⟨max 0.05 (min 0.98 ((calculateLightnessCurve fam.lightnessCurve.start
              fam.lightnessCurve.endv n fam.lightnessCurve.type).getD i 0)),
          max 0 (min 0.4 ((calculateChromaCurve fam.chromaCurve.start fam.chromaCurve.peak
              fam.chromaCurve.endv fam.chromaCurve.peakPosition n).getD i 0)),
          fam.h⟩ : Step) := by
  unfold generateFamilySteps
  rw [hram]
  rw [if_neg (by simp : ¬(false = true))]
  rw [genStepsAux_false_map]

theorem lookupFamily_updateFamily (name : String) (f : HueFamily → HueFamily) :
    ∀ cs : List (String × HueFamily),
      lookupFamily (updateFamily cs name f) name = (lookupFamily cs name).map f := by
  intro cs
  induction cs with
  | nil => rfl
  | cons e rest ih =>
    by_cases he : e.1 = name
    · rw [show updateFamily (e :: rest) name f =
          (e.1, f e.2) :: updateFamily rest name f from by simp [updateFamily, he]]
      rw [show lookupFamily ((e.1, f e.2) :: updateFamily rest name f) name =
          some (f e.2) from by simp [lookupFamily, List.find?_cons, he]]
      rw [show lookupFamily (e :: rest) name = some e.2 from by
          simp [lookupFamily, List.find?_cons, he]]
      rfl
    · rw [show updateFamily (e :: rest) name f = e :: updateFamily rest name f from by
          simp [updateFamily, he]]
      rw [show lookupFamily (e :: updateFamily rest name f) name =
          lookupFamily (updateFamily rest name f) name from by
            simp [lookupFamily, List.find?_cons, he]]
      rw [show lookupFamily (e :: rest) name = lookupFamily rest name from by
          simp [lookupFamily, List.find?_cons, he]]
      exact ih

/-! ## Claim theorems -/

/-- C1: for every hue family with valid curves and every step count in
[2, 20], generation produces a steps sequence of length exactly stepCount in
which every step satisfies l in [0.05, 0.98], c in [0, 0.4] and h in
[0, 360). Both cited generation paths are covered: regenerateSingleHue
(per-family gamut flag) and the full generateDefaultSteps (global gamut
flag) over a registry of valid families. -/
theorem generation_stepCount_and_bounds (G : GamutPred) (gflag : Bool) (n : ℕ)
    (fam : HueFamily) (cs : List (String × HueFamily)) (cache cache2 : GamutCache)
    (hn : 2 ≤ n) (_hn20 : n ≤ 20) (hfam : FamValid fam) (hwf : CacheWF cache)
    (hcs : ∀ e ∈ cs, FamValid e.2) (hwf2 : CacheWF cache2) :
    ((regenerateSingleHue G n fam cache).1.steps.length = n ∧
      ∀ s ∈ (regenerateSingleHue G n fam cache).1.steps, StepInRange s) ∧
    (∀ e ∈ (generateDefaultSteps G gflag n cs cache2).1,
      e.2.steps.length = n ∧ ∀ s ∈ e.2.steps, StepInRange s) := by
  refine ⟨⟨regenerateSingleHue_length G n fam cache, ?_⟩, ?_⟩
  · exact fun s hs => generateFamilySteps_bounds G fam.gamutAware n fam cache hn hfam hwf s hs
  · exact (generateDefaultSteps_families G gflag n hn cs cache2 hwf2 hcs).1

/-- Witness for C1 at the startup yellow family, 12 steps, empty cache. -/
theorem generation_stepCount_and_bounds_witness :
    ((2 : ℕ) ≤ 12 ∧ (12 : ℕ) ≤ 20 ∧ FamValid yellowBase ∧ CacheWF [] ∧
      ∀ e ∈ ([("yellow", yellowBase)] : List (String × HueFamily)), FamValid e.2) ∧
    (((regenerateSingleHue G0 12 yellowBase []).1.steps.length = 12 ∧
        ∀ s ∈ (regenerateSingleHue G0 12 yellowBase []).1.steps, StepInRange s) ∧
      ∀ e ∈ (generateDefaultSteps G0 true 12 [("yellow", yellowBase)] []).1,
        e.2.steps.length = 12 ∧ ∀ s ∈ e.2.steps, StepInRange s) := by
  have hfam : FamValid yellowBase := by
    refine ⟨by norm_num [yellowBase], by norm_num [yellowBase], ?_⟩
    intro hc hceq
    rw [show yellowBase.hueCurve = some ⟨95.8, 71.5, "linear"⟩ from rfl] at hceq
    cases hceq
    norm_num
  have hwf : CacheWF ([] : GamutCache) := fun e he => absurd he (List.not_mem_nil e)
  have hcs : ∀ e ∈ ([("yellow", yellowBase)] : List (String × HueFamily)), FamValid e.2 := by
    intro e he
    rcases List.mem_cons.mp he with he | he
    · subst he; exact hfam
    · exact absurd he (List.not_mem_nil e)
  exact ⟨⟨by norm_num, by norm_num, hfam, hwf, hcs⟩,
    generation_stepCount_and_bounds G0 true 12 yellowBase [("yellow", yellowBase)] [] []
      (by norm_num) (by norm_num) hfam hwf hcs hwf⟩

/-- C2 (divergence witness for the code bug): the preset-07 yellow family
carries gamutAware = false, yet the full generation generateDefaultSteps,
which branches on the global params.gamutAware flag (true at startup, still
unrefreshed when loadPreset regenerates), invokes findMaxChroma once per
step for that family; the single-family path regenerateSingleHue, which
branches on the per-family flag as the claim and the repository
documentation describe, never invokes it. -/
theorem generateDefaultSteps_ignores_family_gamut_flag :
    yellow07.gamutAware = false ∧
    (∀ (G : GamutPred) (cache : GamutCache),
      (generateDefaultSteps G true 12 [("yellow", yellow07)] cache).2.2 = 12) ∧
    (∀ (G : GamutPred) (cache : GamutCache),
      (regenerateSingleHue G 12 yellow07 cache).2.2 = 0) := by
  refine ⟨rfl, fun G cache => ?_, fun G cache => ?_⟩
  · rw [generateDefaultSteps_count]; rfl
  · rw [regenerateSingleHue_count]; rfl

/-- C4 (counterexample): with the malformed configuration peakPosition = 0
the generate operation does not fail fast: it still replaces the family
steps (initially empty) with a full 12-step sequence. In JavaScript the
chroma of the step at t = 0 is the silent NaN of the division 0/0. -/
theorem regeneration_accepts_zero_peakPosition :
    c4Fam.chromaCurve.peakPosition = 0 ∧ c4Fam.steps = [] ∧
    (regenerateSingleHue G0 12 c4Fam []).1.steps.length = 12 :=
  ⟨rfl, rfl, regenerateSingleHue_length G0 12 c4Fam []⟩

/-- C4 (amended): generation performs no configuration validation and never
fails: for every gamut predicate, every step count (including below 2) and
every family configuration (including peakPosition equal to 0 or 1), the
generate operation completes and unconditionally replaces the steps with
exactly stepCount entries, silently producing degenerate output for
malformed configurations. -/
theorem generation_never_rejects (G : GamutPred) (n : ℕ) (fam : HueFamily)
    (cache : GamutCache) :
    (regenerateSingleHue G n fam cache).1.steps.length = n ∧
    (regenerateSingleHue G n fam cache).1 =
      { fam with steps := (generateFamilySteps G fam.gamutAware n fam cache).1 } :=
  ⟨regenerateSingleHue_length G n fam cache, rfl⟩

/-- C5 (counterexample): a change of the global step count does not clear
the GamutCache: from state s0 (global gamut flag off, one cached entry) the
steps change handler leaves the cache exactly as it was, so the entry
created before the change survives it. -/
theorem stepsChange_does_not_clear_cache :
    s0.gamutCache ≠ [] ∧
    (stepsChangeHandler G0 s0 8).1.gamutCache = s0.gamutCache ∧
    cacheFind (stepsChangeHandler G0 s0 8).1.gamutCache (500, 1956) = some 0.07 := by
  have hc : (stepsChangeHandler G0 s0 8).1.gamutCache = s0.gamutCache := by
    show (generateDefaultSteps G0 s0.gamutAwareParam 8 s0.colorSystem s0.gamutCache).2.1 =
      s0.gamutCache
    rw [show s0.gamutAwareParam = false from rfl]
    exact generateDefaultSteps_false_cache G0 8 s0.colorSystem s0.gamutCache
  refine ⟨by simp [s0], hc, ?_⟩
  rw [hc]
  rfl

/-- C5 (amended): the cache is reset before any lookup of the regeneration
triggered by a per-row gamut-policy change or by a preset load (the
resulting state is independent of whatever the cache held before), while a
step-count change leaves the cache in place: every entry present before the
change is still present after it. -/
theorem cache_invalidation_policy (G : GamutPred) (s : AppState) (v : Bool)
    (n : ℕ) (c1 c2 : GamutCache) (p : List (String × PresetColor))
    (hsel : (lookupFamily s.colorSystem s.selectedHue).isSome = true) :
    gamutAwareChangeHandler G { s with gamutCache := c1 } v =
      gamutAwareChangeHandler G { s with gamutCache := c2 } v ∧
    loadPresetOp G p { s with gamutCache := c1 } =
      loadPresetOp G p { s with gamutCache := c2 } ∧
    (∀ e ∈ s.gamutCache, e ∈ (stepsChangeHandler G s n).1.gamutCache) := by
  refine ⟨?_, rfl, ?_⟩
  · obtain ⟨fam0, hfam0⟩ := Option.isSome_iff_exists.mp hsel
    have hlook : lookupFamily (updateFamily s.colorSystem s.selectedHue
        (fun fam => { fam with gamutAware := v })) s.selectedHue =
        some { fam0 with gamutAware := v } := by
      rw [lookupFamily_updateFamily, hfam0]
      rfl
    unfold gamutAwareChangeHandler
    dsimp only
    rw [hlook]
  · intro e he
    exact generateDefaultSteps_cache_mono G s.gamutAwareParam n s.colorSystem
      s.gamutCache e he

/-- Witness for C5 at the concrete state s0. -/
theorem cache_invalidation_policy_witness :
    (lookupFamily s0.colorSystem s0.selectedHue).isSome = true ∧
    (gamutAwareChangeHandler G0 { s0 with gamutCache := [] } false =
        gamutAwareChangeHandler G0 { s0 with gamutCache := s0.gamutCache } false ∧
      loadPresetOp G0 [] { s0 with gamutCache := [] } =
        loadPresetOp G0 [] { s0 with gamutCache := s0.gamutCache } ∧
      ∀ e ∈ s0.gamutCache, e ∈ (stepsChangeHandler G0 s0 8).1.gamutCache) := by
  have hsel : (lookupFamily s0.colorSystem s0.selectedHue).isSome = true := rfl
  exact ⟨hsel, cache_invalidation_policy G0 s0 false 8 [] s0.gamutCache [] hsel⟩

/-- C6: for every chroma curve with peakPosition strictly between 0 and 1
and every stepCount of at least 2, the chroma evaluator takes the value peak
at t = peakPosition, start at t = 0 and end at t = 1; accordingly the first
generated value (t = 0) is start and the last (t = 1) is end. -/
theorem chromaCurve_control_points (start peak endv pp : ℚ) (n : ℕ)
    (hpp0 : 0 < pp) (hpp1 : pp < 1) (hn : 2 ≤ n) :
    chromaCurveAt start peak endv pp pp = peak ∧
    chromaCurveAt start peak endv pp 0 = start ∧
    chromaCurveAt start peak endv pp 1 = endv ∧
    (calculateChromaCurve start peak endv pp n).getD 0 0 = start ∧
    (calculateChromaCurve start peak endv pp n).getD (n - 1) 0 = endv := by
  have hpeak : chromaCurveAt start peak endv pp pp = peak := by
    unfold chromaCurveAt
    rw [if_pos (le_refl pp), div_self (ne_of_gt hpp0)]
    ring
  have hstart : chromaCurveAt start peak endv pp 0 = start := by
    unfold chromaCurveAt
    rw [if_pos (le_of_lt hpp0), zero_div, mul_zero, add_zero]
  have hend : chromaCurveAt start peak endv pp 1 = endv := by
    unfold chromaCurveAt
    rw [if_neg (not_le.mpr hpp1),
      div_self (ne_of_gt (by linarith : (0 : ℚ) < 1 - pp))]
    ring
  have hcastn : ((n : ℚ) - 1) ≠ 0 := by
    have : (2 : ℚ) ≤ (n : ℚ) := by exact_mod_cast hn
    intro hzero
    linarith
  refine ⟨hpeak, hstart, hend, ?_, ?_⟩
  · unfold calculateChromaCurve
    rw [rangeMap_getD _ n 0 0 (by omega)]
    rw [Nat.cast_zero, zero_div, hstart]
  · unfold calculateChromaCurve
    rw [rangeMap_getD _ n (n - 1) 0 (by omega)]
    rw [show ((n - 1 : ℕ) : ℚ) = (n : ℚ) - 1 from by
        have h1 : (1 : ℕ) ≤ n := by omega
        push_cast [h1]
        ring]
    rw [div_self hcastn, hend]

/-- Witness for C6 at the cyan chroma curve, 12 steps. -/
theorem chromaCurve_control_points_witness :
    ((0 : ℚ) < 0.36 ∧ (0.36 : ℚ) < 1 ∧ (2 : ℕ) ≤ 12) ∧
    (chromaCurveAt 0.06 0.114 0.036 0.36 0.36 = 0.114 ∧
      chromaCurveAt 0.06 0.114 0.036 0.36 0 = 0.06 ∧
      chromaCurveAt 0.06 0.114 0.036 0.36 1 = 0.036 ∧
      (calculateChromaCurve 0.06 0.114 0.036 0.36 12).getD 0 0 = 0.06 ∧
      (calculateChromaCurve 0.06 0.114 0.036 0.36 12).getD (12 - 1) 0 = 0.036) :=
  ⟨⟨by norm_num, by norm_num, by norm_num⟩,
    chromaCurve_control_points 0.06 0.114 0.036 0.36 12 (by norm_num) (by norm_num)
      (by norm_num)⟩

/-- C7 (counterexample): on the generated 6-step ramp of c7Base, targeting
reference lightness 1 clamps step 0 to lightness 1, which differs from
shifting it by the common additive offset (0.98 + 0.5588 = 1.5388): the
lightness values are not all shifted by the same additive offset. -/
theorem adjustHueLightness_not_purely_additive :
    c7Gen.steps ≠ [] ∧
    ((adjustHueLightness c7Gen 1).steps.getD 0 ⟨0, 0, 0⟩).l ≠
      (c7Gen.steps.getD 0 ⟨0, 0, 0⟩).l +
        (1 - (c7Gen.steps.getD (c7Gen.steps.length / 2) ⟨0, 0, 0⟩).l) := by
  have hlv : calculateLightnessCurve 0.98 0.082 6 "linear" =
      [0.98, 0.8004, 0.6208, 0.4412, 0.2616, 0.082] := by
    norm_num [calculateLightnessCurve, lightnessCurveAt, curveEase_linear, List.range_succ]
  have hsteps : c7Gen.steps = (List.range 6).map fun i =>
      (⟨max 0.05 (min 0.98 ((calculateLightnessCurve 0.98 0.082 6 "linear").getD i 0)),
        max 0 (min 0.4 ((calculateChromaCurve 0.013 0.221 0.020 0.45 6).getD i 0)),
        (312.8 : ℚ)⟩ : Step) := by
    show (generateFamilySteps G0 c7Base.gamutAware 6 c7Base []).1 = _
    rw [show c7Base.gamutAware = false from rfl]
    exact generateFamilySteps_false_steps G0 6 c7Base [] rfl
  have hadj : (adjustHueLightness c7Gen 1).steps =
      c7Gen.steps.map fun st =>
        (⟨max 0 (min 1 (st.l +
            (1 - (c7Gen.steps.getD (c7Gen.steps.length / 2) ⟨0, 0, 0⟩).l))),
          st.c, st.h⟩ : Step) := rfl
  constructor
  · rw [hsteps]; simp
  · rw [hadj, hsteps, hlv]
    norm_num [List.range_succ, max_def, min_def]

/-- C7 (amended): adjustHueLightness and adjustHueChroma preserve the step
count and hue of every step; every lightness is shifted by the common
additive offset and then clamped to [0, 1], and every chroma is scaled by
the common ratio (1 when the reference chroma is not positive) and then
clamped to [0, 0.4]. -/
theorem adjust_ops_shift_scale_with_clamp (fam : HueFamily) (mL mC : ℚ)
    (_hne : fam.steps ≠ []) :
    (adjustHueLightness fam mL).steps.length = fam.steps.length ∧
    (adjustHueChroma fam mC).steps.length = fam.steps.length ∧
    (adjustHueLightness fam mL).steps =
      (fam.steps.map fun st =>
        (⟨max 0 (min 1 (st.l +
            (mL - (fam.steps.getD (fam.steps.length / 2) ⟨0, 0, 0⟩).l))),
          st.c, st.h⟩ : Step)) ∧
    (adjustHueChroma fam mC).steps =
      (fam.steps.map fun st =>
        (⟨st.l,
          max 0 (min 0.4 (st.c *
            (if (fam.steps.getD (fam.steps.length / 2) ⟨0, 0, 0⟩).c > 0 then
              mC / (fam.steps.getD (fam.steps.length / 2) ⟨0, 0, 0⟩).c
             else 1))),
          st.h⟩ : Step)) :=
  ⟨by simp [adjustHueLightness], by simp [adjustHueChroma], rfl, rfl⟩

/-- Witness for C7 at the generated family c7Gen. -/
theorem adjust_ops_shift_scale_with_clamp_witness :
    c7Gen.steps ≠ [] ∧
    ((adjustHueLightness c7Gen 0.6).steps.length = c7Gen.steps.length ∧
      (adjustHueChroma c7Gen 0.2).steps.length = c7Gen.steps.length ∧
      (adjustHueLightness c7Gen 0.6).steps =
        (c7Gen.steps.map fun st =>
          (⟨max 0 (min 1 (st.l +
              (0.6 - (c7Gen.steps.getD (c7Gen.steps.length / 2) ⟨0, 0, 0⟩).l))),
            st.c, st.h⟩ : Step)) ∧
      (adjustHueChroma c7Gen 0.2).steps =
        (c7Gen.steps.map fun st =>
          (⟨st.l,
            max 0 (min 0.4 (st.c *
              (if (c7Gen.steps.getD (c7Gen.steps.length / 2) ⟨0, 0, 0⟩).c > 0 then
                0.2 / (c7Gen.steps.getD (c7Gen.steps.length / 2) ⟨0, 0, 0⟩).c
               else 1))),
            st.h⟩ : Step))) := by
  have hne : c7Gen.steps ≠ [] := by
    intro hemp
    have hlen := regenerateSingleHue_length G0 6 c7Base []
    rw [show (regenerateSingleHue G0 6 c7Base []).1.steps = c7Gen.steps from rfl,
      hemp] at hlen
    simp at hlen
  exact ⟨hne, adjust_ops_shift_scale_with_clamp c7Gen 0.6 0.2 hne⟩

/-- C8: two consecutive findMaxChroma calls with the same arguments return
the identical value; the second call does not run the binary search (its
search-ran flag is false): it returns exactly the value stored in the cache
under the quantized key after the first call, and leaves the cache
unchanged. -/
theorem findMaxChroma_consecutive_calls (G : GamutPred) (cache : GamutCache) (l h : ℚ) :
    (findMaxChroma G (findMaxChroma G cache l h).2.1 l h).1 =
      (findMaxChroma G cache l h).1 ∧
    (findMaxChroma G (findMaxChroma G cache l h).2.1 l h).2.2 = false ∧
    cacheFind (findMaxChroma G cache l h).2.1 (cacheKey l h) =
      some (findMaxChroma G cache l h).1 ∧
    (findMaxChroma G (findMaxChroma G cache l h).2.1 l h).2.1 =
      (findMaxChroma G cache l h).2.1 := by
  have hfind : cacheFind (findMaxChroma G cache l h).2.1 (cacheKey l h) =
      some (findMaxChroma G cache l h).1 := by
    unfold findMaxChroma
    cases hf : cacheFind cache (cacheKey l h) with
    | some v => exact hf
    | none => exact cacheFind_cons_self cache (cacheKey l h) _
  have hsecond : findMaxChroma G (findMaxChroma G cache l h).2.1 l h =
      ((findMaxChroma G cache l h).1, (findMaxChroma G cache l h).2.1, false) := by
    conv_lhs => rw [findMaxChroma]
    rw [hfind]
  exact ⟨by rw [hsecond], by rw [hsecond], hfind, by rw [hsecond]⟩

/-- C9: for every family and every new hue value, adjustHueAngle sets the
base hue and the hue of every step to exactly that value while leaving every
step lightness and chroma, and the step count, unchanged (the nonemptiness
of the claim is not even needed). -/
theorem adjustHueAngle_sets_hue_only (fam : HueFamily) (v : ℚ) :
    (adjustHueAngle fam v).h = v ∧
    (adjustHueAngle fam v).steps.length = fam.steps.length ∧
    (∀ s ∈ (adjustHueAngle fam v).steps, s.h = v) ∧
    (adjustHueAngle fam v).steps.map Step.l = fam.steps.map Step.l ∧
    (adjustHueAngle fam v).steps.map Step.c = fam.steps.map Step.c := by
  refine ⟨rfl, by simp [adjustHueAngle], ?_, ?_, ?_⟩
  · intro s hs
    simp only [adjustHueAngle, List.mem_map] at hs
    obtain ⟨a, -, rfl⟩ := hs
    rfl
  · simp only [adjustHueAngle, List.map_map]
    rfl
  · simp only [adjustHueAngle, List.map_map]
    rfl

/-- C10: every curve-type string other than easeIn, easeOut and sCurve is
silently treated as linear by the lightness and hue evaluators: the produced
sequences coincide exactly with those for type linear. -/
theorem unknown_curve_type_treated_linear (ls le hs he2 : ℚ) (n : ℕ) (ty : String)
    (h1 : ty ≠ "easeIn") (h2 : ty ≠ "easeOut") (h3 : ty ≠ "sCurve") :
    calculateLightnessCurve ls le n ty = calculateLightnessCurve ls le n "linear" ∧
    calculateHueCurve hs he2 n ty = calculateHueCurve hs he2 n "linear" := by
  have he : ∀ t : ℚ, curveEase ty t = curveEase "linear" t := by
    intro t
    rw [curveEase_of_unknown ty t h1 h2 h3, curveEase_linear]
  constructor
  · unfold calculateLightnessCurve lightnessCurveAt
    exact List.map_congr_left fun i _ => by rw [he]
  · unfold calculateHueCurve hueCurveAt
    exact List.map_congr_left fun i _ => by rw [he]

/-- Witness for C10 at the unknown type cubic. -/
theorem unknown_curve_type_treated_linear_witness :
    (("cubic" : String) ≠ "easeIn" ∧ ("cubic" : String) ≠ "easeOut" ∧
      ("cubic" : String) ≠ "sCurve") ∧
    (calculateLightnessCurve 0.96 0.21 12 "cubic" =
        calculateLightnessCurve 0.96 0.21 12 "linear" ∧
      calculateHueCurve 95.8 71.5 12 "cubic" = calculateHueCurve 95.8 71.5 12 "linear") :=
  ⟨⟨by decide, by decide, by decide⟩,
    unknown_curve_type_treated_linear 0.96 0.21 95.8 71.5 12 "cubic" (by decide) (by decide)
      (by decide)⟩

end OklchLab
